import Mathlib

/-!
Shallow embedding of the InSAR monitoring app's data-access-and-alignment
core (`app.py`): wide-format per-entity series extraction, chunked
long-format scanning, boolean-flag normalization, bounded LRU memoization,
and the positional tail-truncation series aligner used by the displacement
display callback.

Dates are embedded as integers preserving calendar order; float cell
values are embedded as integers (no claim depends on float arithmetic);
a missing (NaN) cell is `Option.none`.
-/

/-- Lowercase a character the way Python's `str.lower` does on ASCII. -/
def pyLowerChar (c : Char) : Char :=
  if 'A' ≤ c ∧ c ≤ 'Z' then Char.ofNat (c.toNat + 32) else c

/-- Python's `str.strip()`: drop whitespace from both ends. -/
def pyStrip (l : List Char) : List Char :=
  ((l.dropWhile Char.isWhitespace).reverse.dropWhile Char.isWhitespace).reverse

/-- The `.str.strip().str.lower()` fold applied to a raw flag value
(line 79 of `app.py`). -/
def pyFold (s : String) : List Char := (pyStrip s.data).map pyLowerChar

/-- The accepted true-encodings of `_normalize_is_anomaly` (line 80). -/
def trueTokens : List (List Char) := ["true", "1", "t", "yes", "y"].map String.data

/-- `_normalize_is_anomaly` of `app.py` on a single cell: trim, case-fold,
then membership in the accepted set, as int8 0/1. -/
def normalize_is_anomaly (s : String) : Int :=
  if pyFold s ∈ trueTokens then 1 else 0

/-- A second `_normalize_is_anomaly` pass over an already-normalized int8
column (line 103 of `app.py`): pandas `astype(str)` renders the int, then
the same trim/fold/membership test runs. -/
def renormalizeInt (i : Int) : Int := normalize_is_anomaly (toString i)

/-- A time point `(timestamp, value)` of a displacement or prediction series. -/
abbrev TimePoint := Int × Int

/-- A wide CSV: the parsed `Date` column plus one named value column per
entity; `none` is a NaN cell. -/
structure WideFile where
  dates : List Int
  cols : List (String × List (Option Int))

/-- Rows of the target column with a present value, paired with their dates
(the `dropna` step of the readers). -/
def presentRows (dates : List Int) (vals : List (Option Int)) : List TimePoint :=
  (dates.zip vals).filterMap (fun dv => dv.2.map (fun x => (dv.1, x)))

/-- `sort_values("timestamp")` on a series: a stable sort by timestamp. -/
def sortTs (l : List TimePoint) : List TimePoint :=
  List.insertionSort (fun a b => a.1 ≤ b.1) l

/-- `read_insar_pid` of `app.py`: trim the pid, select `usecols=["Date", pid]`
(pandas raises when the pid is not a column), drop NaN rows, sort by
timestamp, reindex densely. -/
def read_insar_pid (f : WideFile) (pid : String) : Except String (List TimePoint) :=
  let p := pyStrip pid.data
  match f.cols.find? (fun c => c.1.data == p) with
  | none => .error "Usecols do not match columns"
  | some c => .ok (sortTs (presentRows f.dates c.2))

/-- `read_pred_pid` of `app.py`: structurally identical to `read_insar_pid`
but over the prediction wide file. -/
def read_pred_pid (f : WideFile) (pid : String) : Except String (List TimePoint) :=
  let p := pyStrip pid.data
  match f.cols.find? (fun c => c.1.data == p) with
  | none => .error "Usecols do not match columns"
  | some c => .ok (sortTs (presentRows f.dates c.2))

instance : IsTotal TimePoint (fun a b => a.1 ≤ b.1) := ⟨fun a b => le_total a.1 b.1⟩

instance : IsTrans TimePoint (fun a b => a.1 ≤ b.1) := ⟨fun _ _ _ h1 h2 => le_trans h1 h2⟩

/-- The values of the column selected for `pid`, empty when absent; used to
state reader properties. -/
def colVals (f : WideFile) (pid : String) : List (Option Int) :=
  match f.cols.find? (fun c => c.1.data == pyStrip pid.data) with
  | none => []
  | some c => c.2

/-- A raw row of a long-format anomaly CSV (`ANOM_USECOLS` / `ANOM_DTYPES`
of `app.py`): `is_anomaly` is read as a string. -/
structure AnomRow where
  pid : String
  lower_bound : Int
  upper_bound : Int
  actual_value : Int
  predicted_value : Int
  is_anomaly : String
deriving DecidableEq

/-- An anomaly-band record after scanning: trimmed pid, normalized int8
`is_anomaly`, and the `timestamp` column which exists only once the aligner
assigns it (`none` before assignment). -/
structure AnomRec where
  pid : List Char
  lower_bound : Int
  upper_bound : Int
  actual_value : Int
  predicted_value : Int
  is_anomaly : Int
  timestamp : Option Int
deriving DecidableEq

/-- The `ch["pid"] = ch["pid"].str.strip()` step applied to one row. -/
def stripPid (r : AnomRow) : AnomRow := { r with pid := ⟨pyStrip r.pid.data⟩ }

/-- One matching row converted to a record: the per-chunk
`_normalize_is_anomaly` pass, no timestamp column yet. -/
def toRec (r : AnomRow) : AnomRec :=
  { pid := r.pid.data, lower_bound := r.lower_bound, upper_bound := r.upper_bound,
    actual_value := r.actual_value, predicted_value := r.predicted_value,
    is_anomaly := normalize_is_anomaly r.is_anomaly, timestamp := none }

/-- Processing of one chunk (lines 91-96 of `app.py`): strip the pid column,
filter to rows matching the trimmed query, normalize `is_anomaly`. -/
def perChunk (q : List Char) (ch : List AnomRow) : List AnomRec :=
  ((ch.map stripPid).filter (fun r => r.pid.data == q)).map toRec

/-- Fuel-indexed chunking of a row list into batches of `n` rows, modelling
the `pd.read_csv(..., chunksize=n)` iterator; fuel `l.length` always
suffices when `0 < n`. -/
def chunksOfAux (n : Nat) : Nat → List AnomRow → List (List AnomRow)
  | _, [] => []
  | 0, _ :: _ => []
  | fuel + 1, a :: l => (a :: l).take n :: chunksOfAux n fuel ((a :: l).drop n)

/-- The sequence of row batches the chunked CSV iterator yields. -/
def chunksOf (n : Nat) (l : List AnomRow) : List (List AnomRow) :=
  chunksOfAux n l.length l

/-- The post-accumulation pass (lines 102-103 of `app.py`): the pid column
is stripped again and `is_anomaly` normalized again (via `astype(str)`). -/
def secondPass (r : AnomRec) : AnomRec :=
  { r with pid := pyStrip r.pid, is_anomaly := renormalizeInt r.is_anomaly }

/-- `read_anom_pid_chunked` of `app.py`: scan the long file in chunks,
accumulate non-empty filtered chunks, return the empty frame when nothing
matched, otherwise concatenate and run the final strip/normalize pass. -/
def read_anom_pid_chunked (chunksize : Nat) (file : List AnomRow) (pid : String) :
    List AnomRec :=
  let q := pyStrip pid.data
  let out := ((chunksOf chunksize file).map (perChunk q)).filter (fun part => !part.isEmpty)
  if out.isEmpty then [] else out.flatten.map secondPass

/-- The `{r with timestamp := some t}` positional timestamp assignment
`a95["timestamp"] = pred_tail["timestamp"].values` does for one row. -/
def setTs (p : TimePoint) (r : AnomRec) : AnomRec := { r with timestamp := some p.1 }

/-- Lines 238-242 (and 244-248) of `app.py`: when both series are non-empty,
take `n = min` of the lengths, keep the last `n` rows of each, and assign the
prediction tail's timestamps onto the anomaly tail positionally. The
prediction series itself is left as is; when either side is empty the block
is skipped and both series are returned unchanged. -/
def alignAnom (pred : List TimePoint) (a : List AnomRec) :
    List TimePoint × List AnomRec :=
  if pred.isEmpty || a.isEmpty then (pred, a)
  else
    let n := min pred.length a.length
    let predTail := pred.drop (pred.length - n)
    let aTail := a.drop (a.length - n)
    (pred, List.zipWith setTs predTail aTail)

/-- A bounded memoizing cache with most-recently-used-first entries,
modelling `functools.lru_cache(maxsize=cap)`. -/
structure LruCache (β : Type) where
  cap : Nat
  entries : List (String × β)

/-- One lookup against an `lru_cache`-wrapped fallible reader: a hit moves
the entry to the front and does not call the reader; a miss calls the
reader, and on success publishes the value, evicting the least-recently-used
entries beyond capacity; a raised error is not cached. The boolean reports
whether the lookup was a hit. -/
def cacheGetE {ε β : Type} (f : String → Except ε β) (c : LruCache β) (k : String) :
    Except ε (β × LruCache β × Bool) :=
  match c.entries.find? (fun e => e.1 == k) with
  | some e => .ok (e.2, ⟨c.cap, (k, e.2) :: c.entries.filter (fun e2 => !(e2.1 == k))⟩, true)
  | none =>
    match f k with
    | .error err => .error err
    | .ok v => .ok (v, ⟨c.cap, ((k, v) :: c.entries).take c.cap⟩, false)

/-- The reader behind `cached_a95` / `cached_a99`: total, wrapped into
`Except` for uniform cache treatment (lru keys the default chunk size
200000). -/
def anomReaderE (file : List AnomRow) : String → Except String (List AnomRec) :=
  fun pid => .ok (read_anom_pid_chunked 200000 file pid)

/-- The four per-kind caches of `app.py` (`cached_insar`, `cached_pred`,
`cached_a95`, `cached_a99`), each capacity 512. -/
structure Caches where
  insar : LruCache (List TimePoint)
  pred : LruCache (List TimePoint)
  a95 : LruCache (List AnomRec)
  a99 : LruCache (List AnomRec)

/-- The per-entity data bundle the displacement figure is built from. -/
structure FigBundle where
  insar : List TimePoint
  pred : List TimePoint
  a95 : List AnomRec
  a99 : List AnomRec
deriving DecidableEq

/-- `display_displacement` of `app.py` (the data part of the click
callback): look the pid up in the four caches in order, return the
not-found result (`none`: empty figure, hidden container) as soon as the
displacement series is empty — before the prediction and anomaly caches
are consulted — otherwise sort the prediction series and align each
anomaly band against it. Returns the figure bundle and the caches as the
callback leaves them. -/
def display_displacement (tsF predF : WideFile) (f95 f99 : List AnomRow)
    (cs : Caches) (pid : String) : Except String (Option FigBundle × Caches) :=
  match cacheGetE (read_insar_pid tsF) cs.insar pid with
  | .error e => .error e
  | .ok (insar, cI, _) =>
    if insar.isEmpty then .ok (none, ⟨cI, cs.pred, cs.a95, cs.a99⟩)
    else
      match cacheGetE (read_pred_pid predF) cs.pred pid with
      | .error e => .error e
      | .ok (pred0, cP, _) =>
        match cacheGetE (anomReaderE f95) cs.a95 pid with
        | .error e => .error e
        | .ok (a95, c95, _) =>
          match cacheGetE (anomReaderE f99) cs.a99 pid with
          | .error e => .error e
          | .ok (a99, c99, _) =>
            let pred1 := if pred0.isEmpty then pred0 else sortTs pred0
            .ok (some ⟨insar, pred1, (alignAnom pred1 a95).2, (alignAnom pred1 a99).2⟩,
                 ⟨cI, cP, c95, c99⟩)

/-- The non-timestamp fields of an anomaly record, used to state that the
aligner touches nothing but the timestamp. -/
def restFields (r : AnomRec) : List Char × Int × Int × Int × Int × Int :=
  (r.pid, r.lower_bound, r.upper_bound, r.actual_value, r.predicted_value, r.is_anomaly)

/-- Consistency of a cache with its underlying reader: every entry holds
exactly the value the reader computes for its key. -/
def invE {ε β : Type} (f : String → Except ε β) (c : LruCache β) : Prop :=
  ∀ e ∈ c.entries, f e.1 = .ok e.2

theorem dropWhile_dropWhile {α : Type} (p : α → Bool) (l : List α) :
    (l.dropWhile p).dropWhile p = l.dropWhile p := by
  induction l with
  | nil => rfl
  | cons a t ih =>
    by_cases h : p a <;> simp [List.dropWhile_cons, h, ih]

theorem dropWhile_head_false {α : Type} {p : α → Bool} :
    ∀ {l : List α} {c : α} {t : List α}, l.dropWhile p = c :: t → p c = false := by
  intro l
  induction l with
  | nil => intro c t h; simp [List.dropWhile] at h
  | cons a l' ih =>
    intro c t h
    by_cases ha : p a
    · exact ih (by simpa [List.dropWhile_cons, ha] using h)
    · rw [List.dropWhile_cons, if_neg (by simp [ha])] at h
      cases h
      simpa using ha

theorem pyStrip_idem (l : List Char) : pyStrip (pyStrip l) = pyStrip l := by
  unfold pyStrip
  cases hm : l.dropWhile Char.isWhitespace with
  | nil => simp
  | cons c t =>
    have hc : Char.isWhitespace c = false := dropWhile_head_false hm
    have hr : ∃ s, (c :: t).reverse.dropWhile Char.isWhitespace = s ++ [c] := by
      rw [List.reverse_cons, List.dropWhile_append]
      split
      · exact ⟨[], by simp [List.dropWhile_cons, hc]⟩
      · exact ⟨_, rfl⟩
    obtain ⟨s, hs⟩ := hr
    rw [hs]
    have h1 : ((s ++ [c]).reverse).dropWhile Char.isWhitespace = (s ++ [c]).reverse := by
      rw [List.reverse_append, List.reverse_singleton, List.singleton_append,
        List.dropWhile_cons, if_neg (by simp [hc])]
    rw [h1, List.reverse_reverse, ← hs, dropWhile_dropWhile, hs]

theorem renormalizeInt_norm (s : String) :
    renormalizeInt (normalize_is_anomaly s) = normalize_is_anomaly s := by
  unfold normalize_is_anomaly
  split
  · decide
  · decide

theorem secondPass_toRec (r : AnomRow) :
    secondPass (toRec (stripPid r)) = toRec (stripPid r) := by
  simp only [secondPass, toRec, stripPid]
  exact congrArg₂ (fun a b => AnomRec.mk a r.lower_bound r.upper_bound r.actual_value
    r.predicted_value b none) (pyStrip_idem r.pid.data) (renormalizeInt_norm r.is_anomaly)

theorem chunksOfAux_flatten (n : Nat) (hn : 0 < n) :
    ∀ (fuel : Nat) (l : List AnomRow), l.length ≤ fuel →
      (chunksOfAux n fuel l).flatten = l := by
  intro fuel
  induction fuel with
  | zero =>
    intro l hl
    cases l with
    | nil => rfl
    | cons a t => simp at hl
  | succ f ih =>
    intro l hl
    cases l with
    | nil => rfl
    | cons a t =>
      show ((a :: t).take n :: chunksOfAux n f ((a :: t).drop n)).flatten = a :: t
      rw [List.flatten_cons, ih ((a :: t).drop n)
          (by simp only [List.length_drop, List.length_cons] at hl ⊢; omega),
        List.take_append_drop]

theorem chunksOf_flatten (n : Nat) (hn : 0 < n) (l : List AnomRow) :
    (chunksOf n l).flatten = l :=
  chunksOfAux_flatten n hn l.length l le_rfl

theorem flatten_filter_nonempty {α : Type} (L : List (List α)) :
    (L.filter (fun part => !part.isEmpty)).flatten = L.flatten := by
  induction L with
  | nil => rfl
  | cons x xs ih =>
    cases x with
    | nil => simpa [List.filter_cons] using ih
    | cons a t => simp [List.filter_cons, ih]

theorem perChunk_append (q : List Char) (a b : List AnomRow) :
    perChunk q (a ++ b) = perChunk q a ++ perChunk q b := by
  simp [perChunk, List.filter_append]

theorem perChunk_flatten (q : List Char) (L : List (List AnomRow)) :
    (L.map (perChunk q)).flatten = perChunk q L.flatten := by
  induction L with
  | nil => rfl
  | cons x xs ih => simp [List.flatten_cons, perChunk_append, ih]

theorem perChunk_eq (q : List Char) (l : List AnomRow) :
    perChunk q l
      = (l.filter (fun r => pyStrip r.pid.data == q)).map (fun r => toRec (stripPid r)) := by
  unfold perChunk
  rw [List.filter_map, List.map_map]
  rfl

theorem read_anom_eq (cs : Nat) (hcs : 0 < cs) (file : List AnomRow) (pid : String) :
    read_anom_pid_chunked cs file pid
      = (file.filter (fun r => pyStrip r.pid.data == pyStrip pid.data)).map
          (fun r => toRec (stripPid r)) := by
  unfold read_anom_pid_chunked
  have hcollapse : ∀ (out : List (List AnomRec)),
      (if out.isEmpty then ([] : List AnomRec) else out.flatten.map secondPass)
        = out.flatten.map secondPass := by
    intro out
    cases out <;> simp
  rw [hcollapse, flatten_filter_nonempty, perChunk_flatten,
    chunksOf_flatten cs hcs, perChunk_eq, List.map_map]
  exact List.map_congr_left (fun r _ => secondPass_toRec r)

theorem zipWith_setTs_timestamp (l1 : List TimePoint) :
    ∀ (l2 : List AnomRec), l1.length = l2.length →
      (List.zipWith setTs l1 l2).map (fun r => r.timestamp)
        = l1.map (fun p => some p.1) := by
  induction l1 with
  | nil =>
    intro l2 h
    cases l2 with
    | nil => rfl
    | cons b t2 => simp at h
  | cons a t ih =>
    intro l2 h
    cases l2 with
    | nil => simp at h
    | cons b t2 =>
      simp only [List.length_cons] at h
      simp [List.zipWith_cons_cons, setTs, ih t2 (by omega)]

theorem zipWith_setTs_rest (l1 : List TimePoint) :
    ∀ (l2 : List AnomRec), l1.length = l2.length →
      (List.zipWith setTs l1 l2).map restFields = l2.map restFields := by
  induction l1 with
  | nil =>
    intro l2 h
    cases l2 with
    | nil => rfl
    | cons b t2 => simp at h
  | cons a t ih =>
    intro l2 h
    cases l2 with
    | nil => simp at h
    | cons b t2 =>
      simp only [List.length_cons] at h
      simp [List.zipWith_cons_cons, setTs, restFields, ih t2 (by omega)]

theorem cacheGetE_ok_val {ε β : Type} {f : String → Except ε β} {c : LruCache β}
    {k : String} {r : β × LruCache β × Bool}
    (hinv : invE f c) (h : cacheGetE f c k = .ok r) : f k = .ok r.1 := by
  unfold cacheGetE at h
  split at h
  case h_1 e heq =>
    have hm := List.mem_of_find?_eq_some heq
    have hk : e.1 = k := by simpa using List.find?_some heq
    cases h
    rw [← hk]
    exact hinv e hm
  case h_2 heq =>
    split at h
    · cases h
    · cases h
      assumption

theorem cacheGetE_inv {ε β : Type} {f : String → Except ε β} {c : LruCache β}
    {k : String} {r : β × LruCache β × Bool}
    (hinv : invE f c) (h : cacheGetE f c k = .ok r) : invE f r.2.1 := by
  unfold cacheGetE at h
  split at h
  case h_1 e heq =>
    have hm := List.mem_of_find?_eq_some heq
    have hk : e.1 = k := by simpa using List.find?_some heq
    cases h
    intro e2 he2
    rcases List.mem_cons.mp he2 with rfl | he2
    · have hv := hinv e hm
      rw [hk] at hv
      exact hv
    · exact hinv e2 (List.mem_of_mem_filter he2)
  case h_2 heq =>
    split at h
    · cases h
    case h_2 v heq2 =>
      cases h
      intro e2 he2
      rcases List.mem_cons.mp (List.take_subset _ _ he2) with rfl | he2
      · exact heq2
      · exact hinv e2 he2

theorem cacheGetE_bound {ε β : Type} {f : String → Except ε β} {c : LruCache β}
    {k : String} {r : β × LruCache β × Bool}
    (h : cacheGetE f c k = .ok r) (hlen : c.entries.length ≤ c.cap) :
    r.2.1.entries.length ≤ c.cap ∧ r.2.1.cap = c.cap := by
  unfold cacheGetE at h
  split at h
  case h_1 e heq =>
    have hm := List.mem_of_find?_eq_some heq
    have hk : e.1 = k := by simpa using List.find?_some heq
    cases h
    refine ⟨?_, rfl⟩
    have hlt : (c.entries.filter (fun e2 => !(e2.1 == k))).length < c.entries.length :=
      List.length_filter_lt_length_iff_exists.mpr ⟨e, hm, by simp [hk]⟩
    simp only [List.length_cons]
    omega
  case h_2 heq =>
    split at h
    · cases h
    · cases h
      exact ⟨List.length_take_le _ _, rfl⟩

theorem cacheGetE_second_hit {ε β : Type} {f : String → Except ε β} {c : LruCache β}
    {k : String} {r : β × LruCache β × Bool}
    (h : cacheGetE f c k = .ok r) (hcap : 0 < c.cap) :
    cacheGetE f r.2.1 k
      = .ok (r.1, ⟨c.cap, (k, r.1) :: r.2.1.entries.filter (fun e2 => !(e2.1 == k))⟩, true) := by
  unfold cacheGetE at h
  split at h
  case h_1 e heq =>
    have hk : e.1 = k := by simpa using List.find?_some heq
    cases h
    unfold cacheGetE
    rw [show ((k, e.2) :: c.entries.filter (fun e2 => !(e2.1 == k))).find?
        (fun e2 => e2.1 == k) = some (k, e.2) by simp [List.find?]]
  case h_2 heq =>
    split at h
    · cases h
    case h_2 v heq2 =>
      cases h
      obtain ⟨m, hm⟩ : ∃ m, c.cap = m + 1 := ⟨c.cap - 1, by omega⟩
      unfold cacheGetE
      rw [show (((k, v) :: c.entries).take c.cap).find? (fun e2 => e2.1 == k)
          = some (k, v) by rw [hm, List.take_succ_cons]; simp [List.find?]]

/-- Example wide file of the spec's end-to-end test: header `Date,E1`, rows
`[2020-01-01,5.0],[2020-01-02,NaN],[2020-01-03,6.0]`. -/
def exFile : WideFile := ⟨[20200101, 20200102, 20200103], [("E1", [some 5, none, some 6])]⟩

/-- A wide file whose only entity column is `E1`; used to probe a missing
column. -/
def exNoX : WideFile := ⟨[1], [("E1", [some 5])]⟩

/-- A wide file with a duplicated date for the same entity. -/
def exDup : WideFile := ⟨[1, 1], [("E1", [some 5, some 6])]⟩

/-- A ten-point prediction series. -/
def pred10 : List TimePoint :=
  [(1, 11), (2, 12), (3, 13), (4, 14), (5, 15), (6, 16), (7, 17), (8, 18), (9, 19), (10, 20)]

/-- A seven-record anomaly-band sequence, timestamps unassigned. -/
def anoms7 : List AnomRec :=
  [⟨['a'], 1, 2, 3, 4, 0, none⟩, ⟨['a'], 5, 6, 7, 8, 1, none⟩, ⟨['a'], 9, 10, 11, 12, 0, none⟩,
   ⟨['a'], 13, 14, 15, 16, 1, none⟩, ⟨['a'], 17, 18, 19, 20, 0, none⟩,
   ⟨['a'], 21, 22, 23, 24, 1, none⟩, ⟨['a'], 25, 26, 27, 28, 0, none⟩]

/-- C4: `_normalize_is_anomaly` first trims and case-folds its input and
returns 1 (true) exactly when the folded text is one of
true/1/t/yes/y, and 0 (false) for every other input, including
unrecognized or empty values; in particular the spec's normalizer table
holds. -/
theorem c4_normalizer_table :
    (∀ s : String, normalize_is_anomaly s = 1 ↔ pyFold s ∈ trueTokens)
  ∧ (∀ s : String, pyFold s ∉ trueTokens → normalize_is_anomaly s = 0)
  ∧ normalize_is_anomaly "True" = 1 ∧ normalize_is_anomaly "1" = 1
  ∧ normalize_is_anomaly "t" = 1 ∧ normalize_is_anomaly "YES" = 1
  ∧ normalize_is_anomaly "y" = 1 ∧ normalize_is_anomaly "False" = 0
  ∧ normalize_is_anomaly "0" = 0 ∧ normalize_is_anomaly "no" = 0
  ∧ normalize_is_anomaly "" = 0 ∧ normalize_is_anomaly "maybe" = 0 := by
  refine ⟨?_, ?_, by decide, by decide, by decide, by decide, by decide, by decide,
    by decide, by decide, by decide, by decide⟩
  · intro s
    unfold normalize_is_anomaly
    split
    case isTrue h => simpa using h
    case isFalse h => simp [h]
  · intro s h
    simp [normalize_is_anomaly, h]

/-- C4 witness: the theorem applied at the concrete input "yes". -/
theorem c4_witness : normalize_is_anomaly "yes" = 1 :=
  (c4_normalizer_table.1 "yes").mpr (by decide)

/-- C1: for non-empty prediction and anomaly series, the aligner's anomaly
output has length `n = min` of the lengths, its timestamps are exactly the
timestamps of the last `n` prediction elements in order, and every other
field equals the corresponding field of the last `n` original anomaly
records in order. -/
theorem c1_aligner_tail_truncation (pred : List TimePoint) (a : List AnomRec)
    (hp : pred ≠ []) (ha : a ≠ []) :
    (alignAnom pred a).2.length = min pred.length a.length
  ∧ (alignAnom pred a).2.map (fun r => r.timestamp)
      = (pred.drop (pred.length - min pred.length a.length)).map (fun p => some p.1)
  ∧ (alignAnom pred a).2.map restFields
      = (a.drop (a.length - min pred.length a.length)).map restFields := by
  have hpe : pred.isEmpty = false := by simpa [List.isEmpty_iff] using hp
  have hae : a.isEmpty = false := by simpa [List.isEmpty_iff] using ha
  have hlp : (pred.drop (pred.length - min pred.length a.length)).length
      = min pred.length a.length := by
    simp only [List.length_drop]
    omega
  have hla : (a.drop (a.length - min pred.length a.length)).length
      = min pred.length a.length := by
    simp only [List.length_drop]
    omega
  have hsame : (pred.drop (pred.length - min pred.length a.length)).length
      = (a.drop (a.length - min pred.length a.length)).length := by rw [hlp, hla]
  refine ⟨?_, ?_, ?_⟩
  · simp only [alignAnom, hpe, hae, Bool.or_self, Bool.false_or, if_neg Bool.false_ne_true,
      List.length_zipWith]
    omega
  · simp only [alignAnom, hpe, hae, Bool.or_self, Bool.false_or, if_neg Bool.false_ne_true]
    exact zipWith_setTs_timestamp _ _ hsame
  · simp only [alignAnom, hpe, hae, Bool.or_self, Bool.false_or, if_neg Bool.false_ne_true]
    exact zipWith_setTs_rest _ _ hsame

/-- C1 witness: a prediction series of length 10 aligned with an anomaly
sequence of length 7, exercising the spec's alignment-truncation test. -/
theorem c1_witness :
    (alignAnom pred10 anoms7).2.length = min pred10.length anoms7.length
  ∧ (alignAnom pred10 anoms7).2.map (fun r => r.timestamp)
      = (pred10.drop (pred10.length - min pred10.length anoms7.length)).map (fun p => some p.1)
  ∧ (alignAnom pred10 anoms7).2.map restFields
      = (anoms7.drop (anoms7.length - min pred10.length anoms7.length)).map restFields :=
  c1_aligner_tail_truncation pred10 anoms7 (by decide) (by decide)

/-- C8 counterexample: with an empty anomaly side and a non-empty
prediction series, the aligned pair is not empty — the prediction component
keeps its elements — refuting that alignment with one empty side produces
an empty aligned pair. -/
theorem c8_counterexample :
    (alignAnom [((1 : Int), (2 : Int))] ([] : List AnomRec)).1 ≠ [] := by decide

/-- C8 amended: when either side is empty, the alignment block is skipped
entirely: both series are returned unchanged (no truncation, no timestamp
assignment) and no error is raised. -/
theorem c8_amended_skip_when_empty (pred : List TimePoint) (a : List AnomRec)
    (h : pred = [] ∨ a = []) : alignAnom pred a = (pred, a) := by
  rcases h with h | h <;> subst h <;> simp [alignAnom]

/-- C8 witness: the amended theorem applied with an empty prediction side
and a non-empty anomaly side. -/
theorem c8_witness : alignAnom [] anoms7 = ([], anoms7) :=
  c8_amended_skip_when_empty [] anoms7 (Or.inl rfl)

/-- C2 counterexample: querying an entity id that is not a column of the
wide file makes both readers surface the pandas usecols error — they do not
return an empty series. -/
theorem c2_counterexample :
    read_insar_pid exNoX "X" = Except.error "Usecols do not match columns"
  ∧ read_pred_pid exNoX "X" = Except.error "Usecols do not match columns"
  ∧ ∀ out, read_insar_pid exNoX "X" ≠ Except.ok out := by
  refine ⟨rfl, rfl, fun out h => ?_⟩
  rw [show read_insar_pid exNoX "X" = Except.error "Usecols do not match columns" from rfl] at h
  exact Except.noConfusion h

/-- C2 amended: for an entity id that matches no column of the wide file,
`read_insar_pid` and `read_pred_pid` raise the usecols-mismatch error to
the caller instead of returning an empty series. -/
theorem c2_amended_missing_column_errors (f : WideFile) (pid : String)
    (h : ∀ c ∈ f.cols, c.1.data ≠ pyStrip pid.data) :
    read_insar_pid f pid = Except.error "Usecols do not match columns"
  ∧ read_pred_pid f pid = Except.error "Usecols do not match columns" := by
  have hf : f.cols.find? (fun c => c.1.data == pyStrip pid.data) = none := by
    rw [List.find?_eq_none]
    intro c hc
    simpa using h c hc
  constructor <;> simp [read_insar_pid, read_pred_pid, hf]

/-- C2 witness: the amended theorem applied to a file without column X. -/
theorem c2_witness :
    read_insar_pid exNoX "X" = Except.error "Usecols do not match columns"
  ∧ read_pred_pid exNoX "X" = Except.error "Usecols do not match columns" :=
  c2_amended_missing_column_errors exNoX "X" (by decide)

/-- C6: whenever the wide reader succeeds, its output is a permutation of
exactly the rows of the target column with a present value — rows with a
missing value are dropped, never retained as gaps — sorted ascending by
timestamp (the list result is densely indexed by construction); and on
the spec's end-to-end example file reading E1 yields exactly
[(2020-01-01,5),(2020-01-03,6)]. -/
theorem c6_wide_reader_drop_sort :
    (∀ (f : WideFile) (pid : String) (out : List TimePoint),
        read_insar_pid f pid = .ok out →
          out.Perm (presentRows f.dates (colVals f pid))
          ∧ List.Sorted (fun a b : TimePoint => a.1 ≤ b.1) out)
  ∧ read_insar_pid exFile "E1" = .ok [(20200101, 5), (20200103, 6)] := by
  constructor
  · intro f pid out h
    simp only [read_insar_pid] at h
    split at h
    · cases h
    case h_2 c heq =>
      cases h
      constructor
      · have hc : colVals f pid = c.2 := by
          unfold colVals
          rw [heq]
        rw [hc]
        exact List.perm_insertionSort _ _
      · exact List.sorted_insertionSort _ _
  · rfl

/-- C6 witness: the general part applied to the example file and entity E1. -/
theorem c6_witness :
    ([(20200101, 5), (20200103, 6)] : List TimePoint).Perm
        (presentRows exFile.dates (colVals exFile "E1"))
  ∧ List.Sorted (fun a b : TimePoint => a.1 ≤ b.1)
      ([(20200101, 5), (20200103, 6)] : List TimePoint) :=
  c6_wide_reader_drop_sort.1 exFile "E1" [(20200101, 5), (20200103, 6)] rfl

/-- C7 counterexample: a wide file holding two valid rows with the same
date yields a series whose timestamps are not strictly increasing,
refuting strict monotonicity of the returned series. -/
theorem c7_counterexample :
    read_insar_pid exDup "E1" = .ok [(1, 5), (1, 6)]
  ∧ ¬ List.Chain' (fun a b : TimePoint => a.1 < b.1) [(1, 5), (1, 6)] := by
  refine ⟨rfl, fun hc => ?_⟩
  have hc' : List.Chain (fun a b : TimePoint => a.1 < b.1) (1, 5) [(1, 6)] := hc
  cases hc' with
  | cons h1 h2 => exact absurd h1 (by decide)

/-- C7 amended: for every entity with at least 2 valid rows in a wide file,
the timestamps of the returned series are non-decreasing — every element's
timestamp is greater than or equal to the previous one (strict increase
holds only when the file's dates are pairwise distinct). -/
theorem c7_amended_sorted_nondecreasing (f : WideFile) (pid : String)
    (out : List TimePoint) (h : read_insar_pid f pid = .ok out)
    (h2 : 2 ≤ out.length) :
    List.Chain' (fun a b : TimePoint => a.1 ≤ b.1) out := by
  simp only [read_insar_pid] at h
  split at h
  · cases h
  case h_2 c heq =>
    cases h
    exact (List.sorted_insertionSort _ _).chain'

/-- C7 witness: the amended theorem applied to the example file, whose E1
series has two valid rows. -/
theorem c7_witness :
    List.Chain' (fun a b : TimePoint => a.1 ≤ b.1)
      ([(20200101, 5), (20200103, 6)] : List TimePoint) :=
  c7_amended_sorted_nondecreasing exFile "E1" [(20200101, 5), (20200103, 6)] rfl (by decide)

/-- Example long anomaly file: rows for two pids, one with padded
whitespace, interleaved in file order. -/
def exAnomFile : List AnomRow :=
  [⟨" A ", 1, 2, 3, 4, "True"⟩, ⟨"B", 5, 6, 7, 8, "1"⟩, ⟨"A", 9, 10, 11, 12, "no"⟩]

/-- C3: for any positive chunk size, the chunked scanner returns exactly
the rows of the file whose trimmed pid equals the trimmed query id,
accumulated across all chunks in the file's own row order without
re-sorting, with the is_anomaly column normalized; when no row matches, the
result is the empty sequence, not an error. -/
theorem c3_chunked_scanner_single_pass (cs : Nat) (hcs : 0 < cs)
    (file : List AnomRow) (pid : String) :
    read_anom_pid_chunked cs file pid
      = (file.filter (fun r => pyStrip r.pid.data == pyStrip pid.data)).map
          (fun r => toRec (stripPid r))
  ∧ ((∀ r ∈ file, pyStrip r.pid.data ≠ pyStrip pid.data) →
      read_anom_pid_chunked cs file pid = []) := by
  refine ⟨read_anom_eq cs hcs file pid, fun hnone => ?_⟩
  rw [read_anom_eq cs hcs file pid]
  have hfil : file.filter (fun r => pyStrip r.pid.data == pyStrip pid.data) = [] := by
    rw [List.filter_eq_nil_iff]
    intro r hr
    simpa using hnone r hr
  rw [hfil]
  rfl

/-- C3 witness: the theorem applied with the default chunk size 200000 to a
concrete file, and again with chunk size 2 forcing several chunks. -/
theorem c3_witness :
    (read_anom_pid_chunked 200000 exAnomFile "A"
      = (exAnomFile.filter (fun r => pyStrip r.pid.data == pyStrip "A".data)).map
          (fun r => toRec (stripPid r))
  ∧ ((∀ r ∈ exAnomFile, pyStrip r.pid.data ≠ pyStrip "A".data) →
      read_anom_pid_chunked 200000 exAnomFile "A" = []))
  ∧ read_anom_pid_chunked 2 exAnomFile "A"
      = [⟨"A".data, 1, 2, 3, 4, 1, none⟩, ⟨"A".data, 9, 10, 11, 12, 0, none⟩] :=
  ⟨c3_chunked_scanner_single_pass 200000 (by decide) exAnomFile "A", rfl⟩

/-- C5: under the cache-consistency invariant (every entry equals the
underlying reader's value for its key) and capacity 512, a successful
lookup returns exactly what the reader computes; a second lookup of the
same id is a hit (no re-read) returning the same value; the invariant is
preserved and the cache stays bounded by 512 entries at capacity 512
(least-recently-used entries are the ones evicted: insertion keeps the
most recent 512). -/
theorem c5_cache_hit_equals_miss {ε β : Type} (f : String → Except ε β)
    (c : LruCache β) (k : String) (r : β × LruCache β × Bool)
    (hinv : invE f c) (hcap : c.cap = 512) (hlen : c.entries.length ≤ 512)
    (h : cacheGetE f c k = .ok r) :
    f k = .ok r.1
  ∧ (∃ c2, cacheGetE f r.2.1 k = .ok (r.1, c2, true))
  ∧ invE f r.2.1
  ∧ r.2.1.entries.length ≤ 512
  ∧ r.2.1.cap = 512 := by
  have hb := cacheGetE_bound h (by omega)
  refine ⟨cacheGetE_ok_val hinv h, ⟨_, cacheGetE_second_hit h (by omega)⟩,
    cacheGetE_inv hinv h, by omega, by omega⟩

/-- Small wide displacement file used by the cache and display witnesses. -/
def tsW : WideFile := ⟨[1], [("E1", [some 5])]⟩

/-- C5 witness: the theorem applied to the insar reader over a concrete
file, an initially empty capacity-512 cache, and the id E1. -/
theorem c5_witness :
    read_insar_pid tsW "E1" = .ok ([(1, 5)] : List TimePoint)
  ∧ (∃ c2, cacheGetE (read_insar_pid tsW)
        (⟨512, [("E1", [(1, 5)])]⟩ : LruCache (List TimePoint)) "E1"
        = .ok (([(1, 5)] : List TimePoint), c2, true))
  ∧ invE (read_insar_pid tsW) (⟨512, [("E1", [(1, 5)])]⟩ : LruCache (List TimePoint))
  ∧ (⟨512, [("E1", [(1, 5)])]⟩ : LruCache (List TimePoint)).entries.length ≤ 512
  ∧ (⟨512, [("E1", [(1, 5)])]⟩ : LruCache (List TimePoint)).cap = 512 :=
  c5_cache_hit_equals_miss (read_insar_pid tsW) ⟨512, []⟩ "E1"
    ([(1, 5)], ⟨512, [("E1", [(1, 5)])]⟩, false)
    (by intro e he; exact absurd he (List.not_mem_nil e)) rfl (by decide) rfl

/-- Prediction wide file for the display witnesses. -/
def predW : WideFile := ⟨[1, 2], [("E1", [some 7, some 8])]⟩

/-- One-row 95-band anomaly file for the display witnesses. -/
def f95W : List AnomRow := [⟨"E1", 0, 0, 0, 0, "True"⟩]

/-- All caches empty at capacity 512 (process start). -/
def caches0 : Caches := ⟨⟨512, []⟩, ⟨512, []⟩, ⟨512, []⟩, ⟨512, []⟩⟩

/-- C9: running the display callback — which sorts, tail-truncates and
overwrites timestamps on series obtained from the caches — leaves every
cache entry consistent with its underlying reader: after the call, each
entry of each cache still maps its id to exactly the series the reader
computes, so a second lookup of the same id observes the originally
computed values, not values altered by the aligner. -/
theorem c9_caches_not_mutated_by_aligner (tsF predF : WideFile)
    (f95 f99 : List AnomRow) (cs : Caches) (pid : String)
    (res : Option FigBundle × Caches)
    (h1 : invE (read_insar_pid tsF) cs.insar) (h2 : invE (read_pred_pid predF) cs.pred)
    (h3 : invE (anomReaderE f95) cs.a95) (h4 : invE (anomReaderE f99) cs.a99)
    (h : display_displacement tsF predF f95 f99 cs pid = .ok res) :
    invE (read_insar_pid tsF) res.2.insar
  ∧ invE (read_pred_pid predF) res.2.pred
  ∧ invE (anomReaderE f95) res.2.a95
  ∧ invE (anomReaderE f99) res.2.a99 := by
  unfold display_displacement at h
  split at h
  · cases h
  case h_2 insar cI b heq1 =>
    split at h
    · cases h
      exact ⟨cacheGetE_inv h1 heq1, h2, h3, h4⟩
    · split at h
      · cases h
      case h_2 pred0 cP b2 heq2 =>
        split at h
        · cases h
        case h_2 a95 c95 b3 heq3 =>
          split at h
          · cases h
          case h_2 a99 c99 b4 heq4 =>
            cases h
            exact ⟨cacheGetE_inv h1 heq1, cacheGetE_inv h2 heq2,
              cacheGetE_inv h3 heq3, cacheGetE_inv h4 heq4⟩

/-- C10: if the cached displacement lookup yields an empty series, the
display callback returns the not-found result (no figure bundle, i.e.
empty figure and hidden container) immediately: the prediction and
anomaly-band caches are returned untouched — they are never consulted —
and no aligned bundle is produced, whatever the prediction and anomaly
files contain. -/
theorem c10_empty_insar_short_circuit (tsF predF : WideFile)
    (f95 f99 : List AnomRow) (cs : Caches) (pid : String)
    (r : List TimePoint × LruCache (List TimePoint) × Bool)
    (h : cacheGetE (read_insar_pid tsF) cs.insar pid = .ok r) (hv : r.1 = []) :
    display_displacement tsF predF f95 f99 cs pid
      = .ok (none, ⟨r.2.1, cs.pred, cs.a95, cs.a99⟩) := by
  obtain ⟨v, c1, b⟩ := r
  simp only at hv
  subst hv
  unfold display_displacement
  rw [h]
  rfl

/-- The result of the concrete display run used by the C9 witness. -/
def c9res : Option FigBundle × Caches :=
  (some ⟨[(1, 5)], [(1, 7), (2, 8)], [⟨"E1".data, 0, 0, 0, 0, 1, some 2⟩], []⟩,
   ⟨⟨512, [("E1", [(1, 5)])]⟩, ⟨512, [("E1", [(1, 7), (2, 8)])]⟩,
    ⟨512, [("E1", [⟨"E1".data, 0, 0, 0, 0, 1, none⟩])]⟩, ⟨512, [("E1", [])]⟩⟩)

/-- C9 witness: a full display run over concrete files from initially
empty caches; afterwards every cache is still reader-consistent. -/
theorem c9_witness :
    invE (read_insar_pid tsW) c9res.2.insar
  ∧ invE (read_pred_pid predW) c9res.2.pred
  ∧ invE (anomReaderE f95W) c9res.2.a95
  ∧ invE (anomReaderE ([] : List AnomRow)) c9res.2.a99 :=
  c9_caches_not_mutated_by_aligner tsW predW f95W [] caches0 "E1" c9res
    (by intro e he; exact absurd he (List.not_mem_nil e))
    (by intro e he; exact absurd he (List.not_mem_nil e))
    (by intro e he; exact absurd he (List.not_mem_nil e))
    (by intro e he; exact absurd he (List.not_mem_nil e))
    rfl

/-- Displacement wide file whose only entity column P1 has no valid rows. -/
def ts0 : WideFile := ⟨[1], [("P1", [none])]⟩

/-- Prediction wide file with a non-empty P1 series, to show it is ignored
by the short circuit. -/
def predW2 : WideFile := ⟨[1], [("P1", [some 9])]⟩

/-- C10 witness: an id whose displacement series is empty short-circuits to
the not-found result, leaving the prediction and anomaly caches untouched
even though a non-empty prediction series exists for that id. -/
theorem c10_witness :
    display_displacement ts0 predW2 [] [] caches0 "P1"
      = .ok (none, ⟨⟨512, [("P1", [])]⟩, caches0.pred, caches0.a95, caches0.a99⟩) :=
  c10_empty_insar_short_circuit ts0 predW2 [] [] caches0 "P1"
    ([], ⟨512, [("P1", [])]⟩, false) rfl rfl
